import Mathlib

/-!
# Verification of the noosh shell core (src/main.c, src/noosh.c)

Shallow embedding of the read–tokenize–dispatch–execute loop of the noosh
shell. Lines of input and tokens are `List Char`; the OS is an explicit
oracle record (`Os`); the observable shell state (working directory, the
chunks written to stdout and stderr) is `OsState`. Each definition mirrors
the C function of the same name in src/main.c (src/noosh.c duplicates them,
apart from the prompt and the `get_cwd` helper used by its `noosh_pwd`).
-/

set_option autoImplicit false

/-- The tokenizer's delimiter set, `NOOSH_TOK_DELIM " \t\r\n\a"` in
src/main.c line 211: space, tab, carriage return, newline, bell (`'\a'`,
ASCII 7). -/
def is_delim (c : Char) : Bool :=
  c = ' ' || c = '\t' || c = '\r' || c = '\n' || c = '\x07'

/-- The scanning loop of `noosh_split_line` (src/main.c lines 227-242):
repeated `strtok(line, " \t\r\n\a")` calls. `cur` is the (reversed) run of
non-delimiter characters read since the last delimiter; a delimiter closes
the current token if one is open, and no empty token is ever emitted. -/
def split_go : List Char → List Char → List (List Char)
  | [], cur => if cur.isEmpty then [] else [cur.reverse]
  | c :: rest, cur =>
    if is_delim c then
      if cur.isEmpty then split_go rest []
      else cur.reverse :: split_go rest []
    else split_go rest (c :: cur)

/-- `noosh_split_line` (src/main.c lines 217-245): the sequence of tokens
`strtok` yields on the line, in order. The C function stores them in a
growing `char **` array and writes a final NULL; the array view is
`noosh_split_line_arr` below, the capacity bookkeeping is `tok_buf_run`. -/
def noosh_split_line (line : List Char) : List (List Char) :=
  split_go line []

/-- The token array exactly as the C function returns it: the tokens in
order followed by the NULL terminator written at `tokens[position]`
(src/main.c line 243), `none` standing for NULL. -/
def noosh_split_line_arr (line : List Char) : List (Option (List Char)) :=
  (noosh_split_line line).map some ++ [none]

/-- Spec-side definition, from the words of the spec only: cut the line at
every delimiter character, keeping the (possibly empty) chunks between
consecutive cuts. -/
def delim_chunks : List Char → List (List Char)
  | [] => [[]]
  | c :: rest =>
    if is_delim c then [] :: delim_chunks rest
    else
      match delim_chunks rest with
      | [] => [[c]]
      | ch :: chs => (c :: ch) :: chs

/-- Spec-side definition: "the maximal runs of non-delimiter characters of
the line, in order" — the non-empty chunks left after cutting at every
delimiter. -/
def maximal_runs (line : List Char) : List (List Char) :=
  (delim_chunks line).filter (fun t => !t.isEmpty)

/-- Space-joining of a token sequence, for the re-splitting round trip the
spec states: tokens separated by single `' '` characters. -/
def join_tokens : List (List Char) → List Char
  | [] => []
  | [t] => t
  | t :: ts => t ++ ' ' :: join_tokens ts

example : noosh_split_line "  ls   -l  /tmp ".toList
    = ["ls".toList, "-l".toList, "/tmp".toList] := by decide

example : noosh_split_line "\t\r\n\x07 ".toList = [] := by decide

example : maximal_runs "  ls   -l ".toList = ["ls".toList, "-l".toList] := by
  decide

example : join_tokens ["ls".toList, "-l".toList] = "ls -l".toList := by decide

/-- Observable state of the shell process: the working directory and the
chunks written so far to stdout and stderr (each entry one `printf` /
`fprintf` / `perror`, in order of emission). -/
structure OsState where
  cwd : List Char
  out : List (List Char)
  err : List (List Char)

/-- The final status `waitpid` reports for a launched child once the
`do ... while (!WIFEXITED && !WIFSIGNALED)` loop of `noosh_launch`
(src/main.c lines 138-140) lets it through: the child exited with a code,
or a signal terminated it. Stop notifications (`WUNTRACED`) are looped
past and never reach the return. -/
inductive ChildStatus where
  | exited (code : Nat)
  | signaled (sig : Nat)

/-- Oracle for the host OS calls the shell makes: whether and where
`chdir` lands given the current directory and the requested path, whether
`getcwd` and `malloc` succeed, whether `fork` succeeds, and the launched
child's final status. -/
structure Os where
  chdirTo : List Char → List Char → Option (List Char)
  getcwdOk : Bool
  mallocOk : Bool
  forkOk : Bool
  childStatus : ChildStatus

/-- Result of one builtin handler or of `noosh_execute`: the C `int`
return value together with the state (`ret`), or a call of `exit(code)`
that ends the whole shell process (`procExit`). -/
inductive BRes where
  | ret (v : Nat) (st : OsState)
  | procExit (code : Nat) (st : OsState)

/-- The returned `int` of a handler, when it returns at all. -/
def BRes.retVal : BRes → Option Nat
  | .ret v _ => some v
  | .procExit _ _ => none

/-- `fprintf(stderr, "noosh: expected argument to \"cd\"\n")`,
src/main.c line 53. -/
def msg_cd_usage : List Char := "noosh: expected argument to \"cd\"\n".toList

/-- The diagnostic `perror("noosh")` writes: "noosh: " followed by the
host's text for the current `errno`. The errno text is host-dependent and
abstracted to a fixed placeholder. -/
def msg_perror_noosh : List Char := "noosh: <errno message>\n".toList

/-- The diagnostic `perror("noosh: allocation error\n")` writes on a
failed `malloc` in `noosh_pwd` (src/main.c line 72). -/
def msg_alloc_failed : List Char :=
  "noosh: allocation error\n: <errno message>\n".toList

/-- `builtin_str` (src/main.c lines 19-24): the fixed, ordered registry of
builtin command names. -/
def builtin_str : List (List Char) :=
  ["cd".toList, "pwd".toList, "help".toList, "exit".toList]

/-- `noosh_num_builtins` (src/main.c lines 37-39). -/
def noosh_num_builtins : Nat := builtin_str.length

/-- The linear search of `noosh_execute` (src/main.c lines 160-164): the
index of the first registry entry equal to `cmd`, by exact string
comparison (`strcmp == 0`), or `none` when no entry matches. -/
def builtin_lookup : List (List Char) → List Char → Option Nat
  | [], _ => none
  | s :: rest, cmd =>
    if cmd = s then some 0
    else (builtin_lookup rest cmd).map (fun i => i + 1)

/-- `noosh_cd` (src/main.c lines 51-60): missing `args[1]` → usage
diagnostic on stderr, nothing else; otherwise `chdir(args[1])`, with
`perror` on failure. Returns 1 in every case. -/
def noosh_cd (os : Os) (st : OsState) (args : List (List Char)) : BRes :=
  match args[1]? with
  | none => .ret 1 { st with err := st.err ++ [msg_cd_usage] }
  | some dir =>
    match os.chdirTo st.cwd dir with
    | some newCwd => .ret 1 { st with cwd := newCwd }
    | none => .ret 1 { st with err := st.err ++ [msg_perror_noosh] }

/-- `noosh_pwd` (src/main.c lines 67-86): allocate a PATH_MAX buffer
(failure is fatal, `exit(EXIT_FAILURE)`), `getcwd` into it and print it
with a newline; on `getcwd` failure, `perror` and `exit(EXIT_FAILURE)`.
`EXIT_FAILURE` is 1. Returns 1 when it returns. -/
def noosh_pwd (os : Os) (st : OsState) (args : List (List Char)) : BRes :=
  if os.mallocOk then
    if os.getcwdOk then
      .ret 1 { st with out := st.out ++ [st.cwd ++ ['\n']] }
    else
      .procExit 1 { st with err := st.err ++ [msg_perror_noosh] }
  else
    .procExit 1 { st with err := st.err ++ [msg_alloc_failed] }

/-- The exact stdout chunks `noosh_help` emits (src/main.c lines 93-105):
banner, one indented line per registry entry, closing line. -/
def help_lines : List (List Char) :=
  ["noosh\n".toList,
   "Type program names and arguments, and hit enter.\n".toList,
   "The following are built in:\n".toList] ++
  builtin_str.map (fun s => "  ".toList ++ s ++ ['\n']) ++
  ["Use the man command for information on other programs.\n".toList]

/-- `noosh_help` (src/main.c lines 93-105). Returns 1. -/
def noosh_help (st : OsState) (args : List (List Char)) : BRes :=
  .ret 1 { st with out := st.out ++ help_lines }

/-- `noosh_exit` (src/main.c lines 112-114): no side effects, returns 0. -/
def noosh_exit (st : OsState) (args : List (List Char)) : BRes :=
  .ret 0 st

/-- `noosh_launch` (src/main.c lines 122-144), seen from the shell
process. Fork failure: `perror`, return 1. Fork success: the child execs
(or, on exec failure, prints its own diagnostic and exits with
EXIT_FAILURE — output of the child process, not of the shell); the parent
waits through stopped states until the child's final status and returns 1
whatever that status is. -/
def noosh_launch (os : Os) (st : OsState) (args : List (List Char)) : BRes :=
  if os.forkOk then
    match os.childStatus with
    | .exited _ => .ret 1 st
    | .signaled _ => .ret 1 st
  else
    .ret 1 { st with err := st.err ++ [msg_perror_noosh] }

/-- The decision `noosh_execute` takes on a token sequence (src/main.c
lines 152-167): nothing for the empty sequence, the first matching
registry entry for a builtin name, otherwise hand the whole sequence to
the launcher. -/
inductive Dispatch where
  | noop
  | builtin (i : Nat)
  | external (args : List (List Char))

/-- The dispatch decision of `noosh_execute`: `args[0] == NULL` → no-op;
else the linear registry search; else launch with the full sequence. -/
def noosh_dispatch (args : List (List Char)) : Dispatch :=
  match args with
  | [] => .noop
  | cmd :: _ =>
    match builtin_lookup builtin_str cmd with
    | some i => .builtin i
    | none => .external args

/-- `builtin_func[i]` (src/main.c lines 26-35): the handler table parallel
to `builtin_str`. Indices ≥ 4 never arise (the registry has 4 entries);
that arm is dead. -/
def run_builtin (i : Nat) (os : Os) (st : OsState)
    (args : List (List Char)) : BRes :=
  match i with
  | 0 => noosh_cd os st args
  | 1 => noosh_pwd os st args
  | 2 => noosh_help st args
  | 3 => noosh_exit st args
  | _ => .ret 1 st

/-- `noosh_execute` (src/main.c lines 152-167): empty command → return 1;
builtin → its handler's result; otherwise `noosh_launch(args)`. -/
def noosh_execute (os : Os) (st : OsState) (args : List (List Char)) : BRes :=
  match noosh_dispatch args with
  | .noop => .ret 1 st
  | .builtin i => run_builtin i os st args
  | .external a => noosh_launch os st a

/-- `noosh_read_line` (src/main.c lines 174-208) over an input stream
modelled as the list of characters remaining on stdin (the empty list is
end-of-stream; `getchar` then yields EOF, and keeps yielding it on every
later call, which the model reflects by leaving the stream empty).
Returns the line read (newline and EOF excluded) and the rest of the
stream. -/
def noosh_read_line : List Char → List Char × List Char
  | [] => ([], [])
  | c :: rest =>
    if c = '\n' then ([], rest)
    else
      let p := noosh_read_line rest
      (c :: p.1, p.2)

/-- The `printf("> ")` prompt of `noosh_loop` (src/main.c line 256). -/
def prompt_chunk : List Char := "> ".toList

/-- What a run of `noosh_loop` (src/main.c lines 250-264) for a given
number of iterations ends in: the process exited with a code (status 0
from a handler makes the loop stop and `main` return `EXIT_SUCCESS` = 0;
`exit(code)` inside a handler ends the process directly), or the loop is
still running after that many iterations. -/
inductive LoopOut where
  | exited (code : Nat) (st : OsState)
  | running (st : OsState)

/-- `noosh_loop` (src/main.c lines 250-264), fuelled by the number of
iterations observed: per iteration print the prompt, read a line, split
it, execute, and continue while the status is nonzero. -/
def noosh_loop (os : Os) : Nat → OsState → List Char → LoopOut
  | 0, st, _ => .running st
  | fuel + 1, st, input =>
    let st1 : OsState := { st with out := st.out ++ [prompt_chunk] }
    let p := noosh_read_line input
    let args := noosh_split_line p.1
    match noosh_execute os st1 args with
    | .ret v st2 => if v = 0 then .exited 0 st2 else noosh_loop os fuel st2 p.2
    | .procExit c st2 => .exited c st2

/-- A concrete benign OS oracle, for evaluating the model on examples:
every call succeeds, `chdir` lands on the requested path, the child exits
cleanly. -/
def osW : Os :=
  { chdirTo := fun _ p => some p
    getcwdOk := true
    mallocOk := true
    forkOk := true
    childStatus := .exited 0 }

/-- A concrete start state for examples. -/
def stW : OsState := { cwd := "/home/user".toList, out := [], err := [] }

example : noosh_execute osW stW ["exit".toList] = .ret 0 stW := rfl

example : (noosh_execute osW stW ["ls".toList, "-l".toList]).retVal
    = some 1 := rfl

example :
    noosh_execute osW stW ["pwd".toList]
      = .ret 1 { stW with out := ["/home/user\n".toList] } := rfl

example :
    noosh_loop osW 2 stW "exit\n".toList
      = .exited 0 { stW with out := [prompt_chunk] } := rfl

/-- The token-array bookkeeping of `noosh_split_line` (src/main.c lines
218, 229-239): the stored-token count (`position`), the slot capacity
(`bufsize`, `NOOSH_TOK_BUFSIZE` = 64 at the start) and how many
`realloc` calls have happened. -/
structure TokBuf where
  position : Nat
  bufsize : Nat
  reallocs : Nat

/-- One stored token's worth of bookkeeping (src/main.c lines 229-239):
`position++`; if `position >= bufsize` then `bufsize += 64` through a
`realloc` — whose failure makes the process abort with a diagnostic
(`exit(EXIT_FAILURE)`), modelled as `none`. `ok k` says whether the k-th
`realloc` succeeds. -/
def tok_alloc_step (ok : Nat → Bool) (st : Option TokBuf) : Option TokBuf :=
  match st with
  | none => none
  | some b =>
    let p := b.position + 1
    if b.bufsize ≤ p then
      if ok b.reallocs then
        some { position := p, bufsize := b.bufsize + 64,
               reallocs := b.reallocs + 1 }
      else none
    else
      some { position := p, bufsize := b.bufsize, reallocs := b.reallocs }

/-- The buffer bookkeeping after `n` tokens have been stored, starting
from `position = 0`, `bufsize = 64` (src/main.c line 218). -/
def tok_buf_run (ok : Nat → Bool) : Nat → Option TokBuf
  | 0 => some { position := 0, bufsize := 64, reallocs := 0 }
  | n + 1 => tok_alloc_step ok (tok_buf_run ok n)

/-- Prefixing `x` to the first chunk of a chunk list (helper for relating
the scanning loop's open token to the spec-side chunks). -/
def cons_head (x : List Char) : List (List Char) → List (List Char)
  | [] => [x]
  | ch :: chs => (x ++ ch) :: chs

theorem delim_chunks_ne_nil (l : List Char) : delim_chunks l ≠ [] := by
  cases l with
  | nil => simp [delim_chunks]
  | cons c rest =>
    simp only [delim_chunks]
    by_cases hc : is_delim c
    · simp [hc]
    · simp only [hc]
      cases h : delim_chunks rest <;> simp

theorem isEmpty_false_of_ne_nil {α : Type} {l : List α} (h : l ≠ []) :
    l.isEmpty = false := by
  cases l with
  | nil => exact absurd rfl h
  | cons a as => rfl

theorem split_go_chunks (l : List Char) : ∀ cur : List Char,
    split_go l cur
      = (cons_head cur.reverse (delim_chunks l)).filter
          (fun t => !t.isEmpty) := by
  induction l with
  | nil =>
    intro cur
    cases cur with
    | nil => simp [split_go, delim_chunks, cons_head]
    | cons a as =>
      have hne : (as.reverse ++ [a]).isEmpty = false :=
        isEmpty_false_of_ne_nil (by simp)
      simp [split_go, delim_chunks, cons_head, List.filter, hne]
  | cons c rest ih =>
    intro cur
    by_cases hc : is_delim c
    · simp only [split_go, delim_chunks, hc, if_true]
      rw [ih []]
      cases hd : delim_chunks rest with
      | nil => exact absurd hd (delim_chunks_ne_nil rest)
      | cons ch chs =>
        cases cur with
        | nil => simp [cons_head, List.filter]
        | cons a as =>
          have hne : (as.reverse ++ [a]).isEmpty = false :=
            isEmpty_false_of_ne_nil (by simp)
          simp [cons_head, List.filter, hne]
    · simp only [split_go, delim_chunks, hc, if_false]
      rw [ih (c :: cur)]
      cases hd : delim_chunks rest with
      | nil => exact absurd hd (delim_chunks_ne_nil rest)
      | cons ch chs => simp [cons_head, List.append_assoc]

theorem split_go_wf (l : List Char) : ∀ cur : List Char,
    (∀ c ∈ cur, is_delim c = false) →
    ∀ t ∈ split_go l cur, t ≠ [] ∧ ∀ c ∈ t, is_delim c = false := by
  induction l with
  | nil =>
    intro cur hcur t ht
    cases cur with
    | nil => simp [split_go] at ht
    | cons a as =>
      simp [split_go] at ht
      subst ht
      refine ⟨by simp, ?_⟩
      intro c hc
      apply hcur c
      simp only [List.mem_append, List.mem_reverse, List.mem_singleton] at hc
      simp only [List.mem_cons]
      tauto
  | cons c rest ih =>
    intro cur hcur t ht
    by_cases hc : is_delim c
    · simp only [split_go, hc, if_true] at ht
      cases cur with
      | nil => exact ih [] (by simp) t (by simpa using ht)
      | cons a as =>
        simp only [List.isEmpty_cons] at ht
        rcases List.mem_cons.mp (by simpa using ht) with h1 | h2
        · subst h1
          refine ⟨by simp, ?_⟩
          intro x hx
          apply hcur x
          simp only [List.mem_append, List.mem_reverse, List.mem_singleton]
            at hx
          simp only [List.mem_cons]
          tauto
        · exact ih [] (by simp) t h2
    · simp only [split_go, hc, if_false] at ht
      refine ih (c :: cur) ?_ t ht
      intro x hx
      rcases List.mem_cons.mp hx with h1 | h2
      · subst h1; simpa using hc
      · exact hcur x h2

theorem noosh_split_line_wf (line : List Char) :
    ∀ t ∈ noosh_split_line line, t ≠ [] ∧ ∀ c ∈ t, is_delim c = false :=
  split_go_wf line [] (by simp)

theorem split_go_nondelim_chunk (t : List Char) : ∀ rest cur : List Char,
    (∀ c ∈ t, is_delim c = false) →
    split_go (t ++ rest) cur = split_go rest (t.reverse ++ cur) := by
  induction t with
  | nil => intro rest cur _; simp
  | cons c t' ih =>
    intro rest cur h
    have hc : is_delim c = false := h c (by simp)
    simp only [List.cons_append, split_go]
    rw [if_neg (by simp [hc])]
    rw [show (c :: t').reverse ++ cur = t'.reverse ++ (c :: cur) by simp]
    exact ih rest (c :: cur) (fun x hx => h x (by simp [hx]))

theorem split_join_tokens (ts : List (List Char))
    (h : ∀ t ∈ ts, t ≠ [] ∧ ∀ c ∈ t, is_delim c = false) :
    noosh_split_line (join_tokens ts) = ts := by
  induction ts with
  | nil => rfl
  | cons t ts' ih =>
    obtain ⟨hne, hall⟩ := h t (by simp)
    cases ts' with
    | nil =>
      show split_go (join_tokens [t]) [] = [t]
      have hj : join_tokens [t] = t ++ [] := by simp [join_tokens]
      rw [hj, split_go_nondelim_chunk t [] [] hall]
      simp only [List.append_nil, split_go]
      rw [if_neg (by simpa using hne)]
      simp
    | cons t2 ts'' =>
      show split_go (join_tokens (t :: t2 :: ts'')) [] = t :: t2 :: ts''
      have hj : join_tokens (t :: t2 :: ts'')
          = t ++ ' ' :: join_tokens (t2 :: ts'') := by simp [join_tokens]
      rw [hj, split_go_nondelim_chunk t (' ' :: join_tokens (t2 :: ts'')) []
            hall]
      simp only [List.append_nil, split_go]
      rw [if_pos (by decide), if_neg (by simpa using hne)]
      rw [List.reverse_reverse]
      have := ih (fun x hx => h x (by simp [hx]))
      simpa [noosh_split_line] using congrArg (t :: ·) this

theorem split_go_all_delim (line : List Char)
    (h : ∀ c ∈ line, is_delim c = true) : split_go line [] = [] := by
  induction line with
  | nil => rfl
  | cons c rest ih =>
    have hc : is_delim c = true := h c (by simp)
    simp only [split_go, hc, if_true, List.isEmpty_nil]
    exact ih (fun x hx => h x (by simp [hx]))

theorem builtin_lookup_eq_none {cmd : List Char} :
    ∀ {L : List (List Char)}, cmd ∉ L → builtin_lookup L cmd = none := by
  intro L
  induction L with
  | nil => intro _; rfl
  | cons s rest ih =>
    intro h
    have h1 : cmd ≠ s := fun he => h (by simp [he])
    have h2 : cmd ∉ rest := fun he => h (by simp [he])
    simp [builtin_lookup, h1, ih h2]

theorem tok_buf_run_all_ok (n : Nat) :
    tok_buf_run (fun _ => true) n
      = some { position := n, bufsize := 64 * (n / 64 + 1),
               reallocs := n / 64 } := by
  induction n with
  | zero => rfl
  | succ m ih =>
    rw [tok_buf_run, ih]
    simp only [tok_alloc_step]
    by_cases h : 64 * (m / 64 + 1) ≤ m + 1
    · rw [if_pos h]
      simp only [if_true, Option.some.injEq, TokBuf.mk.injEq, true_and]
      omega
    · rw [if_neg h]
      simp only [Option.some.injEq, TokBuf.mk.injEq, true_and]
      omega

theorem tok_buf_run_small (ok : Nat → Bool) (n : Nat) (h : n < 64) :
    tok_buf_run ok n
      = some { position := n, bufsize := 64, reallocs := 0 } := by
  induction n with
  | zero => rfl
  | succ m ih =>
    rw [tok_buf_run, ih (by omega)]
    simp only [tok_alloc_step]
    rw [if_neg (by omega)]

/-- An OS oracle whose `getcwd` fails (everything else succeeds), for the
`pwd` fatal path. -/
def osWfail : Os :=
  { chdirTo := fun _ p => some p
    getcwdOk := false
    mallocOk := true
    forkOk := true
    childStatus := .exited 0 }

/-- C1 — the claim is FALSE on this code (code bug): on an input stream
that is already at end-of-stream, `noosh_loop` never terminates.
`noosh_read_line` turns EOF into an empty line (it has no EOF exit of its
own), the empty line tokenizes to zero tokens, `noosh_execute` returns 1
for the empty sequence, and the loop goes round again: after any number
of iterations the loop is still running, having printed one `"> "`
prompt per iteration, and no iteration count ever reaches an exit. The
spec's scenario — empty input terminates immediately with exit code 0 —
does not hold. -/
theorem C1_eof_loop_never_terminates (os : Os) (fuel : Nat) (st : OsState) :
    noosh_loop os fuel st []
      = .running
          { st with out := st.out ++ List.replicate fuel prompt_chunk } ∧
    ∀ (c : Nat) (st' : OsState), noosh_loop os fuel st [] ≠ .exited c st' := by
  have key : ∀ (f : Nat) (s : OsState), noosh_loop os f s []
      = .running { s with out := s.out ++ List.replicate f prompt_chunk } := by
    intro f
    induction f with
    | zero => intro s; simp [noosh_loop]
    | succ n ih =>
      intro s
      rw [show noosh_loop os (n + 1) s []
            = noosh_loop os n { s with out := s.out ++ [prompt_chunk] } []
          from rfl]
      rw [ih]
      simp [List.replicate_succ, List.append_assoc]
  refine ⟨key fuel st, ?_⟩
  intro c st' hcontra
  rw [key fuel st] at hcontra
  simp at hcontra

/-- C2: `noosh_execute` on a non-empty token sequence whose first token
is not a registered builtin name dispatches to the Process Launcher with
exactly that token sequence, and the launcher's result — hence the
execution outcome — is "continue" (return value 1) for every OS oracle:
whatever the fork result, and whatever the child's final status (a clean
exit, the EXIT_FAILURE of a failed exec, or death by signal). -/
theorem C2_external_always_continue (os : Os) (st : OsState)
    (cmd : List Char) (rest : List (List Char)) (h : cmd ∉ builtin_str) :
    noosh_dispatch (cmd :: rest) = .external (cmd :: rest) ∧
    noosh_execute os st (cmd :: rest) = noosh_launch os st (cmd :: rest) ∧
    (noosh_launch os st (cmd :: rest)).retVal = some 1 := by
  have hl : builtin_lookup builtin_str cmd = none := builtin_lookup_eq_none h
  refine ⟨?_, ?_, ?_⟩
  · simp [noosh_dispatch, hl]
  · simp [noosh_execute, noosh_dispatch, hl]
  · unfold noosh_launch
    by_cases hf : os.forkOk
    · cases hcs : os.childStatus <;> simp [hf, hcs, BRes.retVal]
    · simp [hf, BRes.retVal]

/-- C2's theorem at a concrete input: `ls -l` is not a builtin; the
dispatch is external with the full token sequence and the outcome is
continue. -/
theorem C2_witness :
    noosh_dispatch ["ls".toList, "-l".toList]
        = .external ["ls".toList, "-l".toList] ∧
    noosh_execute osW stW ["ls".toList, "-l".toList]
        = noosh_launch osW stW ["ls".toList, "-l".toList] ∧
    (noosh_launch osW stW ["ls".toList, "-l".toList]).retVal = some 1 :=
  C2_external_always_continue osW stW "ls".toList ["-l".toList] (by decide)

/-- C3: a token sequence headed by `"exit"` makes `noosh_execute` return
0 ("terminate"), with no state change, whatever the further arguments;
a sequence headed by any other registered builtin name (`"cd"`, `"pwd"`,
`"help"`) never produces the terminate outcome: whenever the handler
returns an outcome it is 1 ("continue"); `retVal = none` is `pwd`'s
process-fatal path (see C4), on which no outcome is returned at all. -/
theorem C3_exit_terminates_others_do_not (os : Os) (st : OsState)
    (rest : List (List Char)) :
    noosh_execute os st ("exit".toList :: rest) = .ret 0 st ∧
    ∀ cmd ∈ ["cd".toList, "pwd".toList, "help".toList],
      (noosh_execute os st (cmd :: rest)).retVal = some 1 ∨
      (noosh_execute os st (cmd :: rest)).retVal = none := by
  constructor
  · rfl
  · intro cmd hcmd
    simp only [List.mem_cons, List.not_mem_nil, or_false] at hcmd
    rcases hcmd with h | h | h
    · subst h
      rw [show noosh_execute os st ("cd".toList :: rest)
            = noosh_cd os st ("cd".toList :: rest) from rfl]
      rcases h1 : rest[0]? with _ | dir
      · simp [noosh_cd, h1, BRes.retVal]
      · rcases h2 : os.chdirTo st.cwd dir with _ | d2 <;>
          simp [noosh_cd, h1, h2, BRes.retVal]
    · subst h
      rw [show noosh_execute os st ("pwd".toList :: rest)
            = noosh_pwd os st ("pwd".toList :: rest) from rfl]
      by_cases hm : os.mallocOk
      · by_cases hg : os.getcwdOk
        · simp [noosh_pwd, hm, hg, BRes.retVal]
        · simp [noosh_pwd, hm, hg, BRes.retVal]
      · simp [noosh_pwd, hm, BRes.retVal]
    · subst h
      left
      rfl

/-- C4: the `pwd` builtin (reached through `noosh_execute`), under a
successful allocation: when `getcwd` succeeds it prints the current
working directory (with a newline) to stdout and returns 1 ("continue");
when `getcwd` fails it writes the error to stderr and ends the whole
process with exit code 1 (`EXIT_FAILURE`, non-zero) — no outcome is
returned to the loop. -/
theorem C4_pwd_fatal_on_failure (os : Os) (st : OsState)
    (rest : List (List Char)) (hm : os.mallocOk = true) :
    noosh_execute os st ("pwd".toList :: rest)
        = noosh_pwd os st ("pwd".toList :: rest) ∧
    (os.getcwdOk = true →
       noosh_pwd os st ("pwd".toList :: rest)
         = .ret 1 { st with out := st.out ++ [st.cwd ++ ['\n']] }) ∧
    (os.getcwdOk = false →
       noosh_pwd os st ("pwd".toList :: rest)
         = .procExit 1 { st with err := st.err ++ [msg_perror_noosh] }) := by
  refine ⟨rfl, ?_, ?_⟩
  · intro hg
    simp [noosh_pwd, hm, hg]
  · intro hg
    simp [noosh_pwd, hm, hg]

/-- C4's theorem at a concrete input: with `getcwd` failing, `pwd` ends
the process with exit code 1 after reporting to stderr. -/
theorem C4_witness :
    noosh_pwd osWfail stW ["pwd".toList]
      = .procExit 1 { stW with err := [msg_perror_noosh] } := by
  have h := C4_pwd_fatal_on_failure osWfail stW [] rfl
  simpa using h.2.2 rfl

/-- C5: the `cd` builtin (always reached through `noosh_execute` when
token 0 is `"cd"`): invoked with no second token it writes the usage
diagnostic to stderr, returns 1 ("continue") and leaves the working
directory unchanged — the result is the same for every OS oracle, so no
`chdir` outcome is ever consulted; invoked with a path on which `chdir`
fails it writes the OS error to stderr, returns 1 and likewise leaves
the working directory unchanged. -/
theorem C5_cd_error_paths (st : OsState) :
    (∀ (os : Os) (args : List (List Char)), args[1]? = none →
       noosh_cd os st args
         = .ret 1 { st with err := st.err ++ [msg_cd_usage] }) ∧
    (∀ (os : Os) (dir : List Char) (rest : List (List Char)),
       os.chdirTo st.cwd dir = none →
       noosh_cd os st ("cd".toList :: dir :: rest)
         = .ret 1 { st with err := st.err ++ [msg_perror_noosh] }) ∧
    (∀ (os : Os) (args : List (List Char)),
       noosh_execute os st ("cd".toList :: args)
         = noosh_cd os st ("cd".toList :: args)) := by
  refine ⟨?_, ?_, ?_⟩
  · intro os args h
    simp [noosh_cd, h]
  · intro os dir rest h
    simp [noosh_cd, h]
  · intro os args
    rfl

/-- C6: a line consisting solely of delimiter characters (or empty)
tokenizes to zero tokens — the token array is just the NULL sentinel —
and executing the empty token sequence is a no-op with outcome
"continue": no builtin runs, no launch happens, the state is untouched. -/
theorem C6_blank_line_noop (os : Os) (st : OsState) (line : List Char)
    (h : ∀ c ∈ line, is_delim c = true) :
    noosh_split_line line = [] ∧
    noosh_split_line_arr line = [none] ∧
    noosh_dispatch (noosh_split_line line) = .noop ∧
    noosh_execute os st (noosh_split_line line) = .ret 1 st := by
  have h0 : noosh_split_line line = [] := split_go_all_delim line h
  refine ⟨h0, ?_, ?_, ?_⟩
  · simp [noosh_split_line_arr, h0]
  · rw [h0]; rfl
  · rw [h0]; rfl

/-- C6's theorem at a concrete input: a line of one each of the five
delimiters plus spaces yields zero tokens and a no-op continue. -/
theorem C6_witness :
    noosh_split_line " \t\r\n\x07 ".toList = [] ∧
    noosh_split_line_arr " \t\r\n\x07 ".toList = [none] ∧
    noosh_dispatch (noosh_split_line " \t\r\n\x07 ".toList) = .noop ∧
    noosh_execute osW stW (noosh_split_line " \t\r\n\x07 ".toList)
      = .ret 1 stW :=
  C6_blank_line_noop osW stW " \t\r\n\x07 ".toList (by decide)

/-- C7: the tokenizer splits exactly on the delimiter set {space, tab,
carriage return, newline, bell} and its output is precisely the maximal
runs of non-delimiter characters of the line, in order (`maximal_runs`
is built from the spec's words: cut at every delimiter, drop the empty
chunks — so consecutive delimiters never yield empty tokens). -/
theorem C7_split_is_maximal_runs (line : List Char) :
    noosh_split_line line = maximal_runs line := by
  rw [noosh_split_line, split_go_chunks line [], maximal_runs]
  cases hd : delim_chunks line with
  | nil => exact absurd hd (delim_chunks_ne_nil line)
  | cons ch chs => simp [cons_head]

/-- C8 counterexample to "grows geometrically ... so that the number of
reallocations is bounded": the slot capacity after 0, 64 and 128 stored
tokens is 64, 128 and 192. The first overflow doubles the capacity but
the second multiplies it by only 3/2 — cross-multiplying successive
ratios, 192·64 ≠ 128·128 — so the growth has no constant ratio: it is
arithmetic (+64 per overflow), and reallocation count grows linearly
with the token count rather than logarithmically. -/
theorem C8_counterexample :
    tok_buf_run (fun _ => true) 0
        = some { position := 0, bufsize := 64, reallocs := 0 } ∧
    tok_buf_run (fun _ => true) 64
        = some { position := 64, bufsize := 128, reallocs := 1 } ∧
    tok_buf_run (fun _ => true) 128
        = some { position := 128, bufsize := 192, reallocs := 2 } ∧
    (192 : Nat) * 64 ≠ 128 * 128 := by
  refine ⟨rfl, ?_, ?_, by decide⟩
  · have h := tok_buf_run_all_ok 64
    norm_num at h
    exact h
  · have h := tok_buf_run_all_ok 128
    norm_num at h
    exact h

/-- C8 (amended): the token-slot capacity starts at 64 and grows
arithmetically, +64 slots on each overflow: once the `n` tokens of any
line are stored, the capacity is `64·(n/64 + 1)` — strictly greater than
`n`, so the NULL terminator write at index `n` always fits — and exactly
`n/64` reallocations have happened, a number linear in the token count
(not bounded); failure of the growth `realloc` (here at the first
overflow, the 64th token) is fatal: the process aborts (`none`) with a
diagnostic rather than continuing. -/
theorem C8_amended_arithmetic_growth (line : List Char) (ok : Nat → Bool) :
    (tok_buf_run (fun _ => true) (noosh_split_line line).length
       = some { position := (noosh_split_line line).length,
                bufsize := 64 * ((noosh_split_line line).length / 64 + 1),
                reallocs := (noosh_split_line line).length / 64 }) ∧
    (noosh_split_line line).length
        < 64 * ((noosh_split_line line).length / 64 + 1) ∧
    (ok 0 = false → tok_buf_run ok 64 = none) := by
  refine ⟨tok_buf_run_all_ok _, by omega, ?_⟩
  intro hok
  have h63 := tok_buf_run_small ok 63 (by omega)
  rw [show (64 : Nat) = 63 + 1 from rfl, tok_buf_run, h63]
  simp [tok_alloc_step, hok]

/-- C9: tokenization is idempotent under re-splitting — joining the
produced token sequence with single spaces and tokenizing the joined
line again yields exactly the same token sequence. -/
theorem C9_resplit_idempotent (line : List Char) :
    noosh_split_line (join_tokens (noosh_split_line line))
      = noosh_split_line line :=
  split_join_tokens (noosh_split_line line) (noosh_split_line_wf line)

/-- C10: every token the tokenizer produces is a non-empty string
containing no delimiter character, and the returned token array carries
exactly one NULL sentinel, located at the index equal to the number of
tokens (its last slot). -/
theorem C10_token_array_invariant (line : List Char) :
    (∀ t ∈ noosh_split_line line, t ≠ [] ∧ ∀ c ∈ t, is_delim c = false) ∧
    (noosh_split_line_arr line).length
        = (noosh_split_line line).length + 1 ∧
    (noosh_split_line_arr line)[(noosh_split_line line).length]?
        = some none ∧
    (noosh_split_line_arr line).count none = 1 := by
  refine ⟨noosh_split_line_wf line, ?_, ?_, ?_⟩
  · simp [noosh_split_line_arr]
  · rw [noosh_split_line_arr, List.getElem?_append_right (by simp)]
    simp
  · rw [noosh_split_line_arr, List.count_append]
    have h0 : ((noosh_split_line line).map some).count none = 0 :=
      List.count_eq_zero.mpr (by simp)
    rw [h0]
    simp
